import Mathlib

/-!
Verification of the Magpie permission-resolution and caching engine.

The resolver, service store and cache layers of the repository are exercised
by `tests/test_adapter.py` and described in detail by the specification; the
resolver and cache modules themselves are not part of the analysed sources,
so their definitions below are shallow models written from the specification
text (each such definition carries a doc comment starting with
`Modelled from the spec:`).  The error-response safeguard (`raise_http`,
`valid_http`) is embedded directly from `magpie/api/exception.py`.
-/

namespace Magpie

/-- Modelled from the spec: scope of a permission grant (§3 `PermissionGrant`,
`MATCH` applies only at the exact resource, `RECURSIVE` at the resource and
its descendants). The concrete enum lives in the missing `magpie/permissions.py`. -/
inductive Scope where
  | MATCH
  | RECURSIVE
deriving DecidableEq, Repr

/-- Modelled from the spec: access value of a grant (§3 `PermissionGrant`). -/
inductive Access where
  | ALLOW
  | DENY
deriving DecidableEq, Repr

/-- Modelled from the spec: a grant principal is either a user id or a group id
(§3 `PermissionGrant`, "principal = user-id or group-id"). -/
inductive PrincipalRef where
  | user (uid : Nat)
  | group (gid : Nat)
deriving DecidableEq, Repr

/-- Modelled from the spec: a principal is a user together with its group
memberships (§3 `Principal`). -/
structure Principal where
  uid : Nat
  groups : List Nat
deriving DecidableEq, Repr

/-- Modelled from the spec: an explicit permission grant
(§3 `PermissionGrant`: principal, resource id, permission name, scope, access). -/
structure Grant where
  principal : PrincipalRef
  resource : Nat
  perm : String
  scope : Scope
  access : Access
deriving DecidableEq, Repr

/-- Modelled from the spec: the attributes of a resource node that the
resolver reads (§3 `Resource`: identifier and optional owner group). -/
structure Resource where
  rid : Nat
  ownerGroup : Option Nat
deriving DecidableEq, Repr

/-- Modelled from the spec: whether a grant's principal applies to the given
principal, directly or through one of its groups (§4.1 step 2). -/
def principalApplies (P : Principal) (pr : PrincipalRef) : Bool :=
  match pr with
  | .user u => P.uid == u
  | .group g => decide (g ∈ P.groups)

/-- Modelled from the spec: a grant matches the principal, a resource id and a
permission name (§4.1 step 2, "collect grants matching the principal directly
or any of its groups"). -/
def grantMatches (P : Principal) (g : Grant) (rid : Nat) (perm : String) : Bool :=
  g.resource == rid && g.perm == perm && principalApplies P g.principal

/-- Modelled from the spec: applicability of a grant attached to ancestor `r`
when resolving target resource id `tid` (§4.1 step 2: a MATCH grant applies
only if the ancestor is the original target, a RECURSIVE grant applies at the
ancestor and all of its descendants). -/
def applicableAt (P : Principal) (tid : Nat) (r : Resource) (perm : String) (g : Grant) : Bool :=
  grantMatches P g r.rid perm && (g.scope == Scope.RECURSIVE || r.rid == tid)

/-- Modelled from the spec: the grants applicable at ancestor `r` for the
given principal, target and permission name (§4.1 step 2). -/
def grantsAt (P : Principal) (tid : Nat) (r : Resource) (grants : List Grant)
    (perm : String) : List Grant :=
  grants.filter (applicableAt P tid r perm)

/-- Modelled from the spec: recursive-only applicability, used by the
missing-resource fallback where the absent segment is treated as
RECURSIVE-inherited (§4.1 step 2 fallback). -/
def recApplicableAt (P : Principal) (r : Resource) (perm : String) (g : Grant) : Bool :=
  grantMatches P g r.rid perm && g.scope == Scope.RECURSIVE

/-- Modelled from the spec: the recursive grants applicable at ancestor `r`. -/
def recGrantsAt (P : Principal) (r : Resource) (grants : List Grant)
    (perm : String) : List Grant :=
  grants.filter (recApplicableAt P r perm)

/-- Modelled from the spec: merge of the grants found at the nearest deciding
ancestor — explicit DENY takes precedence over ALLOW when both exist there
(§4.1 step 2). -/
def decideGrants (gs : List Grant) : Access :=
  if gs.any (fun g => g.access == Access.DENY) then Access.DENY else Access.ALLOW

/-- Modelled from the spec: scan the ancestor chain from the target towards
the service root; the first ancestor holding any applicable grant decides,
and if nothing is found anywhere the default is DENY (§4.1 step 2). -/
def scanChain (P : Principal) (tid : Nat) (grants : List Grant) (perm : String) :
    List Resource → Access
  | [] => Access.DENY
  | r :: rest =>
    let gs := grantsAt P tid r grants perm
    if gs.isEmpty then scanChain P tid grants perm rest else decideGrants gs

/-- Modelled from the spec: whether the principal's groups own the resource
(§4.1 step 1, `owner_group_id` membership). -/
def groupOwns (P : Principal) (r : Resource) : Bool :=
  match r.ownerGroup with
  | some g => decide (g ∈ P.groups)
  | none => false

/-- The owning service of a chain ordered from target to root is its last
element. -/
def chainRoot (chain : List Resource) : Option Resource :=
  chain.getLast?

/-- Modelled from the spec: the ownership short-circuit of §4.1 step 1 — the
target resource's owner group or the owning service's owner group is among
the principal's groups. -/
def ownerShortCircuit (P : Principal) (chain : List Resource) : Bool :=
  match chain with
  | [] => false
  | target :: rest =>
    groupOwns P target || groupOwns P ((chainRoot (target :: rest)).getD target)

/-- Modelled from the spec: the permission resolver of §4.1, acting on the
ancestor chain ordered from the target resource up to the owning service.
Step 1 is the ownership short-circuit, step 2 the nearest-ancestor scan. -/
def resolve (P : Principal) (chain : List Resource) (grants : List Grant)
    (perm : String) : Access :=
  match chain with
  | [] => Access.DENY
  | target :: rest =>
    if ownerShortCircuit P (target :: rest) then Access.ALLOW
    else scanChain P target.rid grants perm (target :: rest)

/- ## Helper lemmas about the scan -/

theorem scanChain_append_no_grants (P : Principal) (tid : Nat) (grants : List Grant)
    (perm : String) (pre l : List Resource)
    (hpre : ∀ r ∈ pre, grantsAt P tid r grants perm = []) :
    scanChain P tid grants perm (pre ++ l) = scanChain P tid grants perm l := by
  induction pre with
  | nil => rfl
  | cons r rs ih =>
    have hr : grantsAt P tid r grants perm = [] := hpre r (by simp)
    have hrs : ∀ x ∈ rs, grantsAt P tid x grants perm = [] :=
      fun x hx => hpre x (by simp [hx])
    simp [scanChain, hr, ih hrs]

theorem scanChain_eq_deny (P : Principal) (tid : Nat) (grants : List Grant)
    (perm : String) (chain : List Resource)
    (h : ∀ r ∈ chain, grantsAt P tid r grants perm = []) :
    scanChain P tid grants perm chain = Access.DENY := by
  have := scanChain_append_no_grants P tid grants perm chain [] h
  simpa using this

theorem decideGrants_deny_of_mem {gs : List Grant}
    (h : ∃ g ∈ gs, g.access = Access.DENY) : decideGrants gs = Access.DENY := by
  obtain ⟨g, hg, hd⟩ := h
  have : gs.any (fun g => g.access == Access.DENY) = true :=
    List.any_eq_true.mpr ⟨g, hg, by simp [hd]⟩
  simp [decideGrants, this]

/- ## C1 — nearest ancestor decides, DENY beats ALLOW within it -/

/-- C1: when the ownership short-circuit does not apply, the deciding
ancestor is the one nearest to the target holding any applicable grant
(MATCH grants applicable only at the target itself, RECURSIVE grants at the
granting ancestor and below); the decision is that ancestor's merged grant
regardless of what farther ancestors hold, and if the deciding ancestor
carries both an ALLOW and a DENY for the permission name the result is DENY. -/
theorem nearest_ancestor_decides
    (P : Principal) (grants : List Grant) (perm : String)
    (t : Resource) (rest pre post : List Resource) (a : Resource)
    (hchain : t :: rest = pre ++ a :: post)
    (hsc : ownerShortCircuit P (t :: rest) = false)
    (hpre : ∀ r ∈ pre, grantsAt P t.rid r grants perm = [])
    (ha : grantsAt P t.rid a grants perm ≠ []) :
    resolve P (t :: rest) grants perm = decideGrants (grantsAt P t.rid a grants perm)
    ∧ ((∃ g ∈ grantsAt P t.rid a grants perm, g.access = Access.DENY) →
        resolve P (t :: rest) grants perm = Access.DENY) := by
  have hres : resolve P (t :: rest) grants perm =
      scanChain P t.rid grants perm (t :: rest) := by
    simp [resolve, hsc]
  have hempty : (grantsAt P t.rid a grants perm).isEmpty = false := by
    cases hg : grantsAt P t.rid a grants perm with
    | nil => exact absurd hg ha
    | cons x xs => rfl
  have hmain : resolve P (t :: rest) grants perm =
      decideGrants (grantsAt P t.rid a grants perm) := by
    rw [hres, hchain, scanChain_append_no_grants P t.rid grants perm pre (a :: post) hpre]
    simp [scanChain, hempty]
  exact ⟨hmain, fun hdeny => hmain.trans (decideGrants_deny_of_mem hdeny)⟩

/-- Witness for C1: target (rid 1) has no grant, the parent (rid 2) carries
both a RECURSIVE ALLOW and a RECURSIVE DENY for "read", the root (rid 3)
carries an opposite RECURSIVE ALLOW; the parent decides and DENY wins. -/
theorem nearest_ancestor_decides_witness :
    resolve ⟨100, []⟩
      [⟨1, none⟩, ⟨2, none⟩, ⟨3, none⟩]
      [⟨.user 100, 2, "read", .RECURSIVE, .ALLOW⟩,
       ⟨.user 100, 2, "read", .RECURSIVE, .DENY⟩,
       ⟨.user 100, 3, "read", .RECURSIVE, .ALLOW⟩] "read" = Access.DENY :=
  (nearest_ancestor_decides ⟨100, []⟩
      [⟨.user 100, 2, "read", .RECURSIVE, .ALLOW⟩,
       ⟨.user 100, 2, "read", .RECURSIVE, .DENY⟩,
       ⟨.user 100, 3, "read", .RECURSIVE, .ALLOW⟩] "read"
      ⟨1, none⟩ [⟨2, none⟩, ⟨3, none⟩] [⟨1, none⟩] [⟨3, none⟩] ⟨2, none⟩
      (by decide) (by decide) (by decide) (by decide)).2
    (by decide)

/- ## C2 — default deny -/

/-- C2: if no grant applicable to the principal (directly or through any of
its groups) exists at the target or any ancestor up to and including the
owning service, and the ownership short-circuit does not apply, `resolve`
returns DENY. -/
theorem default_deny_no_grants
    (P : Principal) (t : Resource) (rest : List Resource)
    (grants : List Grant) (perm : String)
    (hsc : ownerShortCircuit P (t :: rest) = false)
    (hno : ∀ r ∈ t :: rest, grantsAt P t.rid r grants perm = []) :
    resolve P (t :: rest) grants perm = Access.DENY := by
  have hres : resolve P (t :: rest) grants perm =
      scanChain P t.rid grants perm (t :: rest) := by
    simp [resolve, hsc]
  rw [hres]
  exact scanChain_eq_deny P t.rid grants perm (t :: rest) hno

/-- Witness for C2: a stranger with an unrelated group gets DENY on a chain
whose only grant names a different user. -/
theorem default_deny_no_grants_witness :
    resolve ⟨42, [9]⟩ [⟨1, none⟩, ⟨2, none⟩]
      [⟨.user 7, 1, "read", .RECURSIVE, .ALLOW⟩] "read" = Access.DENY :=
  default_deny_no_grants ⟨42, [9]⟩ ⟨1, none⟩ [⟨2, none⟩]
    [⟨.user 7, 1, "read", .RECURSIVE, .ALLOW⟩] "read" (by decide) (by decide)

/- ## C3 — ownership short-circuit -/

/-- C3: for a resource owned by a group of the principal (or whose owning
service is owned by such a group), `resolve` returns ALLOW for every
permission name, regardless of any grants — including explicit DENY —
present anywhere in the hierarchy. -/
theorem ownership_short_circuit_allows
    (P : Principal) (target : Resource) (rest : List Resource)
    (grants : List Grant) (perm : String)
    (hown : (∃ g, target.ownerGroup = some g ∧ g ∈ P.groups) ∨
            (∃ g, ((chainRoot (target :: rest)).getD target).ownerGroup = some g ∧
                  g ∈ P.groups)) :
    resolve P (target :: rest) grants perm = Access.ALLOW := by
  have hsc : ownerShortCircuit P (target :: rest) = true := by
    rcases hown with ⟨g, hg, hmem⟩ | ⟨g, hg, hmem⟩
    · have : groupOwns P target = true := by
        simp [groupOwns, hg, hmem]
      simp [ownerShortCircuit, this]
    · have : groupOwns P ((chainRoot (target :: rest)).getD target) = true := by
        simp [groupOwns, hg, hmem]
      simp [ownerShortCircuit, this]
  simp [resolve, hsc]

/-- Witness for C3: owner-group member is allowed even though an explicit
RECURSIVE DENY for the very same user exists at the target. -/
theorem ownership_short_circuit_allows_witness :
    resolve ⟨1, [7]⟩ [⟨5, some 7⟩]
      [⟨.user 1, 5, "write", .RECURSIVE, .DENY⟩] "write" = Access.ALLOW :=
  ownership_short_circuit_allows ⟨1, [7]⟩ ⟨5, some 7⟩ []
    [⟨.user 1, 5, "write", .RECURSIVE, .DENY⟩] "write"
    (Or.inl ⟨7, rfl, by decide⟩)

/- ## Resource tree store, path lookup and missing-resource fallback -/

/-- Modelled from the spec: a node of the persisted resource tree rooted at a
service (§2 Resource Tree Store); the name is the path segment used when
parsing a request. -/
inductive ResTree where
  | node (res : Resource) (name : String) (children : List ResTree)

/-- The resource carried by a tree node. -/
def ResTree.res : ResTree → Resource
  | .node r _ _ => r

/-- The path-segment name of a tree node. -/
def ResTree.name : ResTree → String
  | .node _ n _ => n

/-- The children of a tree node. -/
def ResTree.children : ResTree → List ResTree
  | .node _ _ c => c

/-- Modelled from the spec: find a child node by path-segment name
(§6 `find_resource_children` consumed by path parsing). -/
def findChild (nm : String) : List ResTree → Option ResTree
  | [] => none
  | t :: ts => if t.name == nm then some t else findChild nm ts

/-- Modelled from the spec: walk a parsed resource path down the tree,
returning the ancestor chain ordered from the deepest node reached up to the
service root, together with a flag telling whether the full path exists in
the store (§4.4 parse step and §4.1 step 2 fallback). -/
def descend : ResTree → List Resource → List String → List Resource × Bool
  | t, acc, [] => (t.res :: acc, true)
  | t, acc, seg :: rest =>
    match findChild seg t.children with
    | some c => descend c (t.res :: acc) rest
    | none => (t.res :: acc, false)

/-- Modelled from the spec: the store visible to the engine — named service
trees plus the permission repository (§2 components 1 and 2). -/
structure Store where
  services : List (String × ResTree)
  grants : List Grant

/-- Modelled from the spec: map a parsed service name to its tree
(§4.2 Service Resolver, §6 `find_service_by_name`). -/
def findService (s : Store) (nm : String) : Option ResTree :=
  (s.services.find? (fun e => e.1 == nm)).map (fun e => e.2)

/-- An id strictly larger than every resource id of the chain and every
resource id referenced by a grant. -/
def maxIds (l : List Nat) : Nat := l.foldr max 0

theorem le_maxIds {l : List Nat} {x : Nat} (hx : x ∈ l) : x ≤ maxIds l := by
  induction l with
  | nil => cases hx
  | cons a as ih =>
    rcases List.mem_cons.mp hx with rfl | h
    · simp [maxIds]
    · exact le_trans (ih h) (by simp [maxIds])

/-- A fresh resource id, not present in the chain nor in any grant. -/
def freshId (chain : List Resource) (grants : List Grant) : Nat :=
  maxIds (chain.map (fun r => r.rid) ++ grants.map (fun g => g.resource)) + 1

theorem rid_lt_freshId {chain : List Resource} {grants : List Grant} {r : Resource}
    (hr : r ∈ chain) : r.rid < freshId chain grants := by
  have h : r.rid ≤ maxIds (chain.map (fun r => r.rid) ++ grants.map (fun g => g.resource)) :=
    le_maxIds (by simp; exact Or.inl ⟨r, hr, rfl⟩)
  exact Nat.lt_succ_of_le h

theorem resource_lt_freshId {chain : List Resource} {grants : List Grant} {g : Grant}
    (hg : g ∈ grants) : g.resource < freshId chain grants := by
  have h : g.resource ≤ maxIds (chain.map (fun r => r.rid) ++ grants.map (fun g => g.resource)) :=
    le_maxIds (by simp; exact Or.inr ⟨g, hg, rfl⟩)
  exact Nat.lt_succ_of_le h

/-- Modelled from the spec: the conceptual stand-in for a resource path
segment absent from the store — it owns nothing and no grant is attached to
it (§4.1 step 2 fallback, "not yet materialized"). -/
def virtualTarget (chain : List Resource) (grants : List Grant) : Resource :=
  ⟨freshId chain grants, none⟩

/-- Modelled from the spec: resolution for a resource absent from the store —
the decision of the nearest existing ancestor chain as if the missing segment
were RECURSIVE-inherited (§4.1 step 2 fallback). -/
def resolveMissing (P : Principal) (chain : List Resource) (grants : List Grant)
    (perm : String) : Access :=
  resolve P (virtualTarget chain grants :: chain) grants perm

theorem grantsAt_virtualTarget (P : Principal) (chain : List Resource)
    (grants : List Grant) (perm : String) :
    grantsAt P (freshId chain grants) (virtualTarget chain grants) grants perm = [] := by
  apply List.filter_eq_nil_iff.mpr
  intro g hg
  have hlt : g.resource < freshId chain grants := resource_lt_freshId hg
  have : (g.resource == (virtualTarget chain grants).rid) = false := by
    simp [virtualTarget]
    omega
  simp [applicableAt, grantMatches, this]

theorem grantsAt_fresh_eq_rec (P : Principal) (chain : List Resource)
    (grants : List Grant) (perm : String) {r : Resource} (hr : r ∈ chain) :
    grantsAt P (freshId chain grants) r grants perm = recGrantsAt P r grants perm := by
  apply List.filter_congr
  intro g hg
  have hlt : r.rid < freshId chain grants := rid_lt_freshId hr
  have hne : (r.rid == freshId chain grants) = false := by
    simp
    omega
  simp [applicableAt, recApplicableAt, hne]

/-- Modelled from the spec: the per-permission decision for a parsed request
path against a service tree — the normal resolver on the existing chain, or
the fallback resolver when the path is absent from the store (§4.1, §4.4). -/
def requestDecision (s : Store) (P : Principal) (t : ResTree) (path : List String)
    (perm : String) : Access :=
  let res := descend t [] path
  if res.2 then resolve P res.1 s.grants perm
  else resolveMissing P res.1 s.grants perm

/- ## C4 — unknown resource under a known service -/

/-- C4: for a request naming a known service but a resource path absent from
the store, the decision equals what the nearest existing ancestor grants as
if the missing segment inherited recursively: if recursive grants applicable
to the principal exist at the nearest existing ancestor they decide (ALLOW
unless an explicit DENY is among them), and when no recursive grant applies
anywhere on the existing chain — in particular when the ancestor carries a
MATCH-only grant, or the principal is in no granted group — the result is
DENY. -/
theorem unknown_resource_fallback
    (s : Store) (P : Principal) (req_path : List String) (t : ResTree)
    (a : Resource) (rest : List Resource) (perm : String)
    (hs : findService s (ResTree.name t) = some t)
    (hmiss : descend t [] req_path = (a :: rest, false))
    (hsc : ownerShortCircuit P (virtualTarget (a :: rest) s.grants :: a :: rest) = false) :
    (recGrantsAt P a s.grants perm ≠ [] →
      requestDecision s P t req_path perm = decideGrants (recGrantsAt P a s.grants perm)) ∧
    ((∀ r ∈ a :: rest, recGrantsAt P r s.grants perm = []) →
      requestDecision s P t req_path perm = Access.DENY) := by
  have hreq : requestDecision s P t req_path perm =
      resolveMissing P (a :: rest) s.grants perm := by
    simp [requestDecision, hmiss]
  have hres : resolveMissing P (a :: rest) s.grants perm =
      scanChain P (freshId (a :: rest) s.grants) s.grants perm
        (virtualTarget (a :: rest) s.grants :: a :: rest) := by
    have hdef : resolveMissing P (a :: rest) s.grants perm =
        (if ownerShortCircuit P (virtualTarget (a :: rest) s.grants :: a :: rest)
         then Access.ALLOW
         else scanChain P (virtualTarget (a :: rest) s.grants).rid s.grants perm
           (virtualTarget (a :: rest) s.grants :: a :: rest)) := rfl
    rw [hdef, hsc]
    simp [virtualTarget]
  have hvt := grantsAt_virtualTarget P (a :: rest) s.grants perm
  constructor
  · intro hne
    have hrw : grantsAt P (freshId (a :: rest) s.grants) a s.grants perm =
        recGrantsAt P a s.grants perm :=
      grantsAt_fresh_eq_rec P (a :: rest) s.grants perm (by simp)
    have hempty : (recGrantsAt P a s.grants perm).isEmpty = false := by
      cases hg : recGrantsAt P a s.grants perm with
      | nil => exact absurd hg hne
      | cons x xs => rfl
    rw [hreq, hres]
    simp [scanChain, hvt, hrw, hempty]
  · intro hall
    rw [hreq, hres]
    apply scanChain_eq_deny
    intro r hrmem
    rcases List.mem_cons.mp hrmem with rfl | hin
    · exact hvt
    · rw [grantsAt_fresh_eq_rec P (a :: rest) s.grants perm hin]
      exact hall r hin

/-- Demo store for the fallback scenario: service "demo" (rid 1, no
children), group 10 = "users" holds a RECURSIVE ALLOW for "read" at the
service root. -/
def demoTree : ResTree := .node ⟨1, none⟩ "demo" []

/-- Demo store wrapping `demoTree` with its single grant. -/
def demoStore : Store :=
  ⟨[("demo", demoTree)], [⟨.group 10, 1, "read", .RECURSIVE, .ALLOW⟩]⟩

/-- A member of the granted group "users" (gid 10). -/
def demoMember : Principal := ⟨100, [10]⟩

/-- A user outside the granted group. -/
def demoOutsider : Principal := ⟨101, [20]⟩

/-- Witness for C4: on the non-existing child "demo/unknownchild" the group
member is allowed through the service root's RECURSIVE ALLOW and the
non-member is denied. -/
theorem unknown_resource_fallback_witness :
    requestDecision demoStore demoMember demoTree ["unknownchild"] "read" = Access.ALLOW ∧
    requestDecision demoStore demoOutsider demoTree ["unknownchild"] "read" = Access.DENY :=
  ⟨((unknown_resource_fallback demoStore demoMember ["unknownchild"] demoTree
      ⟨1, none⟩ [] "read" rfl (by decide) (by decide)).1 (by decide)).trans (by decide),
   (unknown_resource_fallback demoStore demoOutsider ["unknownchild"] demoTree
      ⟨1, none⟩ [] "read" rfl (by decide) (by decide)).2 (by decide)⟩

/- ## C6 — MATCH scope applies only at the exact resource -/

/-- C6: a MATCH-scoped grant applies only at the exact resource it is
attached to and never to descendants: a user holding the single applicable
MATCH ALLOW at resource `A` is allowed at `A` itself, and denied on a child
of `A` when no grant applies to the child anywhere on its chain. -/
theorem match_scope_exact_only
    (P : Principal) (A child : Resource) (restA : List Resource)
    (grants : List Grant) (perm : String) (g : Grant)
    (hscA : ownerShortCircuit P (A :: restA) = false)
    (hscC : ownerShortCircuit P (child :: A :: restA) = false)
    (hgA : grantsAt P A.rid A grants perm = [g])
    (hscope : g.scope = Scope.MATCH)
    (hallow : g.access = Access.ALLOW)
    (hchild : ∀ r ∈ child :: A :: restA, grantsAt P child.rid r grants perm = []) :
    resolve P (A :: restA) grants perm = Access.ALLOW ∧
    resolve P (child :: A :: restA) grants perm = Access.DENY := by
  constructor
  · have hres : resolve P (A :: restA) grants perm =
        scanChain P A.rid grants perm (A :: restA) := by
      simp [resolve, hscA]
    rw [hres]
    simp [scanChain, hgA, decideGrants, hallow]
  · have hres : resolve P (child :: A :: restA) grants perm =
        scanChain P child.rid grants perm (child :: A :: restA) := by
      simp [resolve, hscC]
    rw [hres]
    exact scanChain_eq_deny P child.rid grants perm _ hchild

/-- Witness for C6: user 50 holds a MATCH-only ALLOW for "write" at resource
"demo/a" (rid 2); access is allowed at rid 2 and denied at its child rid 3. -/
theorem match_scope_exact_only_witness :
    resolve ⟨50, []⟩ [⟨2, none⟩, ⟨1, none⟩]
      [⟨.user 50, 2, "write", .MATCH, .ALLOW⟩] "write" = Access.ALLOW ∧
    resolve ⟨50, []⟩ [⟨3, none⟩, ⟨2, none⟩, ⟨1, none⟩]
      [⟨.user 50, 2, "write", .MATCH, .ALLOW⟩] "write" = Access.DENY :=
  match_scope_exact_only ⟨50, []⟩ ⟨2, none⟩ ⟨3, none⟩ [⟨1, none⟩]
    [⟨.user 50, 2, "write", .MATCH, .ALLOW⟩] "write"
    ⟨.user 50, 2, "write", .MATCH, .ALLOW⟩
    (by decide) (by decide) (by decide) rfl rfl (by decide)

/- ## Access control decision point -/

/-- Modelled from the spec: the parsed form of an incoming request — service
name, resource path segments, required permission names, and the raw query
parameters from which an OWS `request=` discriminator may add a
request-specific sub-permission (§4.4, §6 Request parser). -/
structure Request where
  svcName : String
  path : List String
  perms : List String
  query : List (String × String)
deriving DecidableEq, Repr

/-- Modelled from the spec: the `request=` operation discriminator read from
the live query parameters (§4.3 ACL region key discriminator). -/
def requestedDisc (req : Request) : Option String :=
  (req.query.find? (fun q => q.1 == "request")).map (fun q => q.2)

/-- Modelled from the spec: all permission names an operation requires — the
parsed permissions plus the request-specific sub-permission when the
discriminator is present; ALL must resolve ALLOW (§4.1 step 3). -/
def requiredPerms (req : Request) : List String :=
  match requestedDisc req with
  | some d => req.perms ++ [d]
  | none => req.perms

/-- Modelled from the spec: aggregate decision across the required
permission names — every one must resolve ALLOW (§4.1 step 3). -/
def aggregateAllowed (s : Store) (P : Principal) (t : ResTree) (path : List String)
    (perms : List String) : Bool :=
  perms.all (fun p => requestDecision s P t path p == Access.ALLOW)

/-- Modelled from the spec: outcome of the decision point — allow silently,
raise AccessForbidden, or raise NotFound (§4.4 contract). -/
inductive CheckResult where
  | allowed
  | forbidden
  | notFound
deriving DecidableEq, Repr

/-- Modelled from the spec: the decision point `check_request` of §4.4 —
unknown service name is NotFound; otherwise each required permission is
resolved (through the fallback rule when the path is absent from the store)
and any DENY yields AccessForbidden. -/
def check_request (s : Store) (P : Principal) (req : Request) : CheckResult :=
  match findService s req.svcName with
  | none => CheckResult.notFound
  | some t =>
    if aggregateAllowed s P t req.path (requiredPerms req) then CheckResult.allowed
    else CheckResult.forbidden

theorem aggregate_true_iff (s : Store) (P : Principal) (t : ResTree)
    (path : List String) (perms : List String) :
    aggregateAllowed s P t path perms = true ↔
      ∀ p ∈ perms, requestDecision s P t path p = Access.ALLOW := by
  simp [aggregateAllowed, List.all_eq_true]

theorem access_not_allow {a : Access} : ¬a = Access.ALLOW ↔ a = Access.DENY := by
  cases a <;> simp

theorem aggregate_false_iff (s : Store) (P : Principal) (t : ResTree)
    (path : List String) (perms : List String) :
    aggregateAllowed s P t path perms = false ↔
      ∃ p ∈ perms, requestDecision s P t path p = Access.DENY := by
  rw [← Bool.not_eq_true, aggregate_true_iff]
  push_neg
  constructor
  · rintro ⟨p, hp, hne⟩
    exact ⟨p, hp, access_not_allow.mp hne⟩
  · rintro ⟨p, hp, hd⟩
    exact ⟨p, hp, access_not_allow.mpr hd⟩

/- ## C5 — check_request contract -/

/-- C5: `check_request` yields NotFound exactly when the parsed service name
matches no known service; it yields AccessForbidden exactly when the service
is known and at least one required permission resolves to DENY; it allows
exactly when the service is known and every required permission resolves to
ALLOW.  A resource path absent from the store under a known service is never
NotFound — it flows through the fallback rule inside `requestDecision`. -/
theorem check_request_contract (s : Store) (P : Principal) (req : Request) :
    (check_request s P req = CheckResult.notFound ↔ findService s req.svcName = none) ∧
    (check_request s P req = CheckResult.forbidden ↔
      ∃ t, findService s req.svcName = some t ∧
        ∃ p ∈ requiredPerms req, requestDecision s P t req.path p = Access.DENY) ∧
    (check_request s P req = CheckResult.allowed ↔
      ∃ t, findService s req.svcName = some t ∧
        ∀ p ∈ requiredPerms req, requestDecision s P t req.path p = Access.ALLOW) ∧
    (∀ t, findService s req.svcName = some t →
      check_request s P req ≠ CheckResult.notFound) := by
  cases hfs : findService s req.svcName with
  | none =>
    have hcr : check_request s P req = CheckResult.notFound := by
      simp [check_request, hfs]
    refine ⟨by rw [hcr]; simp, by rw [hcr]; simp, by rw [hcr]; simp, ?_⟩
    intro t ht
    exact absurd ht (by simp)
  | some t =>
    cases hagg : aggregateAllowed s P t req.path (requiredPerms req) with
    | false =>
      have hex := (aggregate_false_iff s P t req.path (requiredPerms req)).mp hagg
      have hcr : check_request s P req = CheckResult.forbidden := by
        simp [check_request, hfs, hagg]
      refine ⟨by rw [hcr]; simp, ?_, ?_, ?_⟩
      · rw [hcr]
        exact ⟨fun _ => ⟨t, rfl, hex⟩, fun _ => rfl⟩
      · rw [hcr]
        constructor
        · intro h
          exact absurd h (by simp)
        · rintro ⟨t', ht', hall⟩
          cases ht'
          obtain ⟨p, hp, hd⟩ := hex
          exact Access.noConfusion ((hall p hp).symm.trans hd)
      · intro t' _
        rw [hcr]
        simp
    | true =>
      have hall := (aggregate_true_iff s P t req.path (requiredPerms req)).mp hagg
      have hcr : check_request s P req = CheckResult.allowed := by
        simp [check_request, hfs, hagg]
      refine ⟨by rw [hcr]; simp, ?_, ?_, ?_⟩
      · rw [hcr]
        constructor
        · intro h
          exact absurd h (by simp)
        · rintro ⟨t', ht', p, hp, hd⟩
          cases ht'
          exact Access.noConfusion ((hall p hp).symm.trans hd)
      · rw [hcr]
        exact ⟨fun _ => ⟨t, rfl, hall⟩, fun _ => rfl⟩
      · intro t' _
        rw [hcr]
        simp

/-- Witness for C5: an unknown service name is NotFound, while the unknown
resource "unknownchild" under the known service "demo" is not an error for
the denied outsider — it is AccessForbidden via the fallback rule. -/
theorem check_request_contract_witness :
    check_request demoStore demoMember ⟨"nosuch", [], ["read"], []⟩ =
      CheckResult.notFound ∧
    check_request demoStore demoOutsider ⟨"demo", ["unknownchild"], ["read"], []⟩ =
      CheckResult.forbidden :=
  ⟨(check_request_contract demoStore demoMember ⟨"nosuch", [], ["read"], []⟩).1.mpr rfl,
   (check_request_contract demoStore demoOutsider
      ⟨"demo", ["unknownchild"], ["read"], []⟩).2.1.mpr
     ⟨demoTree, rfl, "read", by decide, by decide⟩⟩

/- ## Access cache: service region and ACL region -/

/-- Modelled from the spec: a live service handle carrying the resource-tree
root and the embedded request-context reference read by downstream
permission parsing (§4.2, §4.3 service region). -/
structure ServiceHandle where
  tree : ResTree
  request : Request

/-- Modelled from the spec: the service cache region, keyed by service name
only (§4.3). -/
abbrev SvcCache := List (String × ServiceHandle)

/-- Modelled from the spec: the ACL cache key — principal identity, service
and resource identity, and the requested permission identity including the
request-derived discriminator (§3 `CacheEntry`, §4.3 ACL region). -/
structure AclKey where
  P : Principal
  svc : String
  path : List String
  perms : List String
deriving DecidableEq, Repr

/-- Modelled from the spec: the ACL cache region, mapping keys to the
aggregated allow/deny outcome (§4.3). -/
abbrev AclCache := List (AclKey × Bool)

/-- Modelled from the spec: `get_service` through the service cache region —
on a hit the cached handle's embedded request reference is rebound to the
current request before use; on a miss the handle is built from the store and
cached (§4.3 service region). -/
def getServiceCached (s : Store) (c : SvcCache) (req : Request) :
    Option ServiceHandle × SvcCache :=
  match c.find? (fun e => e.1 == req.svcName) with
  | some e => (some { e.2 with request := req }, c)
  | none =>
    match findService s req.svcName with
    | none => (none, c)
    | some t => (some ⟨t, req⟩, (req.svcName, ⟨t, req⟩) :: c)

/-- Service-cache invariant: every cached handle's tree is the store's tree
for the cached name. -/
def GoodSvc (s : Store) (c : SvcCache) : Prop :=
  ∀ e ∈ c, findService s e.1 = some e.2.tree

theorem getServiceCached_some (s : Store) (c : SvcCache) (req : Request) (t : ResTree)
    (hc : GoodSvc s c) (hs : findService s req.svcName = some t) :
    ∃ c2, getServiceCached s c req = (some ⟨t, req⟩, c2) ∧ GoodSvc s c2 := by
  unfold getServiceCached
  cases hf : c.find? (fun e => e.1 == req.svcName) with
  | some e =>
    obtain ⟨n, tr, rq⟩ := e
    have hmem := List.mem_of_find?_eq_some hf
    have hpred := List.find?_some hf
    have hname : n = req.svcName := by simpa using hpred
    have htree := hc _ hmem
    rw [hname, hs] at htree
    injection htree with h1
    have h2 : tr = t := h1.symm
    subst h2
    exact ⟨c, rfl, hc⟩
  | none =>
    rw [hs]
    refine ⟨(req.svcName, ⟨t, req⟩) :: c, rfl, ?_⟩
    intro e he
    rcases List.mem_cons.mp he with rfl | hin
    · exact hs
    · exact hc e hin

theorem getServiceCached_none (s : Store) (c : SvcCache) (req : Request)
    (hc : GoodSvc s c) (hs : findService s req.svcName = none) :
    getServiceCached s c req = (none, c) := by
  unfold getServiceCached
  cases hf : c.find? (fun e => e.1 == req.svcName) with
  | some e =>
    have hmem := List.mem_of_find?_eq_some hf
    have hpred := List.find?_some hf
    have hname : e.1 = req.svcName := by simpa using hpred
    have htree := hc _ hmem
    rw [hname, hs] at htree
    exact absurd htree (by simp)
  | none =>
    rw [hs]

/-- Modelled from the spec: ACL cache lookup by exact key (§4.3 ACL region). -/
def lookupAcl (c : AclCache) (k : AclKey) : Option Bool :=
  (c.find? (fun e => decide (e.1 = k))).map (fun e => e.2)

theorem lookupAcl_some {c : AclCache} {k : AclKey} {v : Bool}
    (h : lookupAcl c k = some v) : ∃ e ∈ c, e.1 = k ∧ e.2 = v := by
  unfold lookupAcl at h
  cases hf : c.find? (fun e => decide (e.1 = k)) with
  | none => rw [hf] at h; cases h
  | some e =>
    rw [hf] at h
    simp at h
    have hp := List.find?_some hf
    simp at hp
    exact ⟨e, List.mem_of_find?_eq_some hf, hp, h⟩

/-- Modelled from the spec: the uncached decision an ACL key denotes — full
resolution of the key's permission set against the store (§4.1, §4.3). -/
def aclDecision (s : Store) (k : AclKey) : Bool :=
  match findService s k.svc with
  | none => false
  | some t => aggregateAllowed s k.P t k.path k.perms

/-- ACL-cache invariant: every cached value is the uncached decision of its
key. -/
def GoodAcl (s : Store) (c : AclCache) : Prop :=
  ∀ e ∈ c, e.2 = aclDecision s e.1

/-- Modelled from the spec: per-region enable flags (§4.3, §6 cache
configuration). -/
structure CacheConfig where
  svcEnabled : Bool
  aclEnabled : Bool

/-- The mutable state of the two cache regions. -/
structure CacheState where
  svc : SvcCache
  acl : AclCache

/-- Both cache regions are consistent with the store. -/
def GoodState (s : Store) (st : CacheState) : Prop :=
  GoodSvc s st.svc ∧ GoodAcl s st.acl

/-- Modelled from the spec: the ACL cache key of a request for a given
principal (§4.3 ACL region key). -/
def reqAclKey (P : Principal) (req : Request) : AclKey :=
  ⟨P, req.svcName, req.path, requiredPerms req⟩

/-- Modelled from the spec: ACL stage of the cached decision point — serve
from the ACL region when enabled and present, otherwise run full resolution
(counted by the third component) on the handle's rebound request (§4.3,
§4.4).  The resolution reads `h.request`, the handle's embedded request
reference. -/
def applyAcl (cfg : CacheConfig) (s : Store) (acl : AclCache) (P : Principal)
    (h : ServiceHandle) (c2 : SvcCache) : CheckResult × CacheState × Nat :=
  if cfg.aclEnabled then
    match lookupAcl acl (reqAclKey P h.request) with
    | some v =>
      ((if v then CheckResult.allowed else CheckResult.forbidden), ⟨c2, acl⟩, 0)
    | none =>
      ((if aggregateAllowed s P h.tree h.request.path (requiredPerms h.request)
        then CheckResult.allowed else CheckResult.forbidden),
       ⟨c2, (reqAclKey P h.request,
             aggregateAllowed s P h.tree h.request.path (requiredPerms h.request)) :: acl⟩,
       1)
  else
    ((if aggregateAllowed s P h.tree h.request.path (requiredPerms h.request)
      then CheckResult.allowed else CheckResult.forbidden),
     ⟨c2, acl⟩, 1)

/-- Modelled from the spec: the decision point evaluated through the two
cache regions; returns the decision, the new cache state, and the number of
full ACL resolutions performed (§4.3, §4.4). -/
def checkCached (cfg : CacheConfig) (s : Store) (st : CacheState) (P : Principal)
    (req : Request) : CheckResult × CacheState × Nat :=
  match (if cfg.svcEnabled then getServiceCached s st.svc req
         else ((findService s req.svcName).map (fun t => ServiceHandle.mk t req), st.svc)) with
  | (none, c2) => (CheckResult.notFound, ⟨c2, st.acl⟩, 0)
  | (some h, c2) => applyAcl cfg s st.acl P h c2

theorem check_request_known (s : Store) (P : Principal) (req : Request) (t : ResTree)
    (hfs : findService s req.svcName = some t) :
    check_request s P req =
      (if aggregateAllowed s P t req.path (requiredPerms req) then CheckResult.allowed
       else CheckResult.forbidden) := by
  simp [check_request, hfs]

/- ## C7 — cached decisions equal uncached decisions, per principal -/

/-- C7: with both cache regions enabled and caches consistent with the
store, the decision returned for any (principal, request) combination equals
the uncached `check_request` decision, and consistency is preserved — ACL
entries are keyed by `reqAclKey`, which embeds the principal, so requests by
distinct principals against the same cached service resolve and cache
independently, and a later repeat by the first principal still gets its own
decision. -/
theorem cached_check_refines_uncached (s : Store) (st : CacheState) (P : Principal)
    (req : Request) (hgood : GoodState s st) :
    (checkCached ⟨true, true⟩ s st P req).1 = check_request s P req ∧
    GoodState s (checkCached ⟨true, true⟩ s st P req).2.1 := by
  obtain ⟨hsvc, hacl⟩ := hgood
  cases hfs : findService s req.svcName with
  | none =>
    have hg := getServiceCached_none s st.svc req hsvc hfs
    have hred : checkCached ⟨true, true⟩ s st P req =
        (CheckResult.notFound, ⟨st.svc, st.acl⟩, 0) := by
      simp [checkCached, hg]
    rw [hred]
    exact ⟨by simp [check_request, hfs], hsvc, hacl⟩
  | some t =>
    obtain ⟨c2, hg, hgood2⟩ := getServiceCached_some s st.svc req t hsvc hfs
    have hred : checkCached ⟨true, true⟩ s st P req =
        applyAcl ⟨true, true⟩ s st.acl P ⟨t, req⟩ c2 := by
      simp [checkCached, hg]
    rw [hred]
    cases hl : lookupAcl st.acl (reqAclKey P req) with
    | some v =>
      have hred2 : applyAcl ⟨true, true⟩ s st.acl P ⟨t, req⟩ c2 =
          ((if v then CheckResult.allowed else CheckResult.forbidden), ⟨c2, st.acl⟩, 0) := by
        simp [applyAcl, hl]
      obtain ⟨e, hmem, hek, hev⟩ := lookupAcl_some hl
      have hv : v = aclDecision s (reqAclKey P req) := by
        rw [← hev, hacl e hmem, hek]
      have hdec : aclDecision s (reqAclKey P req) =
          aggregateAllowed s P t req.path (requiredPerms req) := by
        simp [aclDecision, reqAclKey, hfs]
      refine ⟨?_, ?_⟩
      · rw [hred2, check_request_known s P req t hfs, hv, hdec]
      · rw [hred2]
        exact ⟨hgood2, hacl⟩
    | none =>
      have hred2 : applyAcl ⟨true, true⟩ s st.acl P ⟨t, req⟩ c2 =
          ((if aggregateAllowed s P t req.path (requiredPerms req)
            then CheckResult.allowed else CheckResult.forbidden),
           ⟨c2, (reqAclKey P req,
                 aggregateAllowed s P t req.path (requiredPerms req)) :: st.acl⟩, 1) := by
        simp [applyAcl, hl]
      refine ⟨?_, ?_⟩
      · rw [hred2, check_request_known s P req t hfs]
      · rw [hred2]
        refine ⟨hgood2, ?_⟩
        intro e he
        rcases List.mem_cons.mp he with rfl | hin
        · simp [aclDecision, reqAclKey, hfs]
        · exact hacl e hin

/-- The request of the C7 scenario. -/
def demoReq : Request := ⟨"demo", ["unknownchild"], ["read"], []⟩

/-- Witness for C7: starting from empty (trivially consistent) caches, the
member resolves ALLOW and is cached, the outsider against the now-cached
service still independently resolves DENY, and a later repeat by the member
still yields ALLOW. -/
theorem cached_check_refines_uncached_witness :
    (checkCached ⟨true, true⟩ demoStore ⟨[], []⟩ demoMember demoReq).1 =
      CheckResult.allowed ∧
    (checkCached ⟨true, true⟩ demoStore
        (checkCached ⟨true, true⟩ demoStore ⟨[], []⟩ demoMember demoReq).2.1
        demoOutsider demoReq).1 = CheckResult.forbidden ∧
    (checkCached ⟨true, true⟩ demoStore
        (checkCached ⟨true, true⟩ demoStore
            (checkCached ⟨true, true⟩ demoStore ⟨[], []⟩ demoMember demoReq).2.1
            demoOutsider demoReq).2.1
        demoMember demoReq).1 = CheckResult.allowed := by
  have h0 : GoodState demoStore ⟨[], []⟩ :=
    ⟨fun e he => absurd he (List.not_mem_nil e),
     fun e he => absurd he (List.not_mem_nil e)⟩
  have r1 := cached_check_refines_uncached demoStore ⟨[], []⟩ demoMember demoReq h0
  have r2 := cached_check_refines_uncached demoStore
    (checkCached ⟨true, true⟩ demoStore ⟨[], []⟩ demoMember demoReq).2.1
    demoOutsider demoReq r1.2
  have r3 := cached_check_refines_uncached demoStore
    (checkCached ⟨true, true⟩ demoStore
        (checkCached ⟨true, true⟩ demoStore ⟨[], []⟩ demoMember demoReq).2.1
        demoOutsider demoReq).2.1
    demoMember demoReq r2.2
  refine ⟨?_, ?_, ?_⟩
  · rw [r1.1]
    decide
  · rw [r2.1]
    decide
  · rw [r3.1]
    decide

/- ## C8 — cache hits rebind the embedded request reference -/

/-- Modelled from the spec: resolution performed through a service handle
reads the handle's embedded request reference — its live query parameters
(the `request=` discriminator) determine the required permission names
(§4.3 service region rebinding requirement). -/
def handleAllowed (s : Store) (P : Principal) (h : ServiceHandle) : Bool :=
  aggregateAllowed s P h.tree h.request.path (requiredPerms h.request)

/-- C8: on a service-cache hit the returned handle is the cached one with
its embedded request reference rebound to the current request, so
permission resolution through the handle reads the current request's query
parameters — the decision equals the uncached decision of the current
request, independent of the request that populated the cache. -/
theorem service_cache_hit_rebinds (s : Store) (c : SvcCache) (P : Principal)
    (req : Request) (e : String × ServiceHandle) (t : ResTree)
    (hc : GoodSvc s c)
    (hhit : c.find? (fun x => x.1 == req.svcName) = some e)
    (hs : findService s req.svcName = some t) :
    (getServiceCached s c req).1 = some ⟨t, req⟩ ∧
    (getServiceCached s c req).2 = c ∧
    handleAllowed s P ⟨t, req⟩ =
      aggregateAllowed s P t req.path (requiredPerms req) := by
  obtain ⟨n, tr, rq⟩ := e
  have hmem := List.mem_of_find?_eq_some hhit
  have hpred := List.find?_some hhit
  have hname : n = req.svcName := by simpa using hpred
  have htree := hc _ hmem
  rw [hname, hs] at htree
  injection htree with h1
  have h2 : tr = t := h1.symm
  subst h2
  unfold getServiceCached
  rw [hhit]
  exact ⟨rfl, rfl, rfl⟩

/-- An OWS-style service whose only grant allows the group the
`GetCapabilities` operation (but not `Execute`). -/
def wpsTree : ResTree := .node ⟨1, none⟩ "wps" []

/-- Store for the C8 scenario. -/
def wpsStore : Store :=
  ⟨[("wps", wpsTree)], [⟨.group 10, 1, "GetCapabilities", .RECURSIVE, .ALLOW⟩]⟩

/-- The request that populated the service cache, with
`request=GetCapabilities`. -/
def reqGetCap : Request := ⟨"wps", [], [], [("request", "GetCapabilities")]⟩

/-- The current request, differing only in the `request=` discriminator. -/
def reqExec : Request := ⟨"wps", [], [], [("request", "Execute")]⟩

/-- A service cache whose entry still embeds `reqGetCap`. -/
def wpsCache : SvcCache := [("wps", ⟨wpsTree, reqGetCap⟩)]

/-- Witness for C8: hitting the cache populated by `reqGetCap` with
`reqExec` returns the handle rebound to `reqExec`, and resolution through
the rebound handle reads the current discriminator — `Execute` is denied
even though the caching request's `GetCapabilities` was allowed. -/
theorem service_cache_hit_rebinds_witness :
    (getServiceCached wpsStore wpsCache reqExec).1 = some ⟨wpsTree, reqExec⟩ ∧
    handleAllowed wpsStore demoMember ⟨wpsTree, reqExec⟩ = false ∧
    handleAllowed wpsStore demoMember ⟨wpsTree, reqGetCap⟩ = true := by
  have r := service_cache_hit_rebinds wpsStore wpsCache demoMember reqExec
      ("wps", ⟨wpsTree, reqGetCap⟩) wpsTree
      (fun x hx => by
        rcases List.mem_singleton.mp hx with rfl
        rfl)
      rfl rfl
  exact ⟨r.1, by decide, by decide⟩

/- ## C9 — service region on, ACL region off -/

/-- C9: with the ACL region disabled and the service region enabled, every
request performs exactly one full ACL resolution (whenever the service is
known), the ACL cache is never written, and the decision equals the one
produced with no caching at all, computed through the cached-and-rebound
service handle. -/
theorem disabled_acl_region_recomputes (s : Store) (st : CacheState) (P : Principal)
    (req : Request) (hsvc : GoodSvc s st.svc) :
    (checkCached ⟨true, false⟩ s st P req).1 = check_request s P req ∧
    (checkCached ⟨true, false⟩ s st P req).2.1.acl = st.acl ∧
    ((∃ t, findService s req.svcName = some t) →
      (checkCached ⟨true, false⟩ s st P req).2.2 = 1) := by
  cases hfs : findService s req.svcName with
  | none =>
    have hg := getServiceCached_none s st.svc req hsvc hfs
    have hred : checkCached ⟨true, false⟩ s st P req =
        (CheckResult.notFound, ⟨st.svc, st.acl⟩, 0) := by
      simp [checkCached, hg]
    rw [hred]
    refine ⟨by simp [check_request, hfs], rfl, ?_⟩
    rintro ⟨t, ht⟩
    exact absurd ht (by simp)
  | some t =>
    obtain ⟨c2, hg, _⟩ := getServiceCached_some s st.svc req t hsvc hfs
    have hred : checkCached ⟨true, false⟩ s st P req =
        applyAcl ⟨true, false⟩ s st.acl P ⟨t, req⟩ c2 := by
      simp [checkCached, hg]
    have hred2 : applyAcl ⟨true, false⟩ s st.acl P ⟨t, req⟩ c2 =
        ((if aggregateAllowed s P t req.path (requiredPerms req)
          then CheckResult.allowed else CheckResult.forbidden), ⟨c2, st.acl⟩, 1) := by
      simp [applyAcl]
    rw [hred, hred2]
    exact ⟨(check_request_known s P req t hfs).symm, rfl, fun _ => rfl⟩

/-- Witness for C9: with an empty service cache, the member's request on
the unknown child computes exactly one real ACL resolution. -/
theorem disabled_acl_region_recomputes_witness :
    (checkCached ⟨true, false⟩ demoStore ⟨[], []⟩ demoMember
        ⟨"demo", ["unknownchild"], ["read"], []⟩).2.2 = 1 :=
  (disabled_acl_region_recomputes demoStore ⟨[], []⟩ demoMember
      ⟨"demo", ["unknownchild"], ["read"], []⟩
      (fun e he => absurd he (List.not_mem_nil e))).2.2 ⟨demoTree, rfl⟩

/- ## Error-response safeguard (magpie/api/exception.py) -/

/-- The safeguard bound, from `magpie/api/exception.py`
(`RAISE_RECURSIVE_SAFEGUARD_MAX = 5`). -/
def RAISE_RECURSIVE_SAFEGUARD_MAX : Nat := 5

/-- Outcome of a `raise_http` invocation: either the bare
`HTTPInternalServerError` raised directly by the safeguard branch, or the
normal formatted response raised (or returned under `nothrow`) at the end of
the function. -/
inductive HttpOutcome where
  | plainInternalError
  | formatted
deriving DecidableEq, Repr

/-- Model of `raise_http` from `magpie/api/exception.py`.  The module-global
`RAISE_RECURSIVE_SAFEGUARD_COUNT` is threaded explicitly as `count`; the
oracle `failAt` tells whether response formatting at a given nesting depth
itself raises (the `except` branches of `format_content_json_str` and
`generate_response_http_format`, and the failure paths of
`validate_params`), which re-enters `raise_http` before any reset occurs.
Returned are the counter left behind, the outcome raised, and the total
number of nested `raise_http` invocations. -/
def raise_http (failAt : Nat → Bool) (depth count : Nat) :
    Nat × HttpOutcome × Nat :=
  if RAISE_RECURSIVE_SAFEGUARD_MAX < count + 1 then
    (count + 1, HttpOutcome.plainInternalError, 1)
  else if failAt depth then
    let r := raise_http failAt (depth + 1) (count + 1)
    (r.1, r.2.1, r.2.2 + 1)
  else (0, HttpOutcome.formatted, 1)
termination_by RAISE_RECURSIVE_SAFEGUARD_MAX + 1 - count
decreasing_by
  simp only [not_lt] at *
  omega

/-- Model of `valid_http` from `magpie/api/exception.py`: on completion it
resets the module-global safeguard counter to 0 and returns the formatted
successful response. -/
def valid_http (count : Nat) : Nat × HttpOutcome :=
  (0, HttpOutcome.formatted)

theorem raise_http_safeguard_trip (failAt : Nat → Bool) (depth count : Nat)
    (h : RAISE_RECURSIVE_SAFEGUARD_MAX ≤ count) :
    raise_http failAt depth count = (count + 1, HttpOutcome.plainInternalError, 1) := by
  rw [raise_http]
  simp [Nat.lt_succ_of_le h]

theorem raise_http_calls_bounded (failAt : Nat → Bool) (depth count : Nat) :
    (raise_http failAt depth count).2.2 + count ≤
      RAISE_RECURSIVE_SAFEGUARD_MAX + 1 ∨
    (RAISE_RECURSIVE_SAFEGUARD_MAX < count ∧
      (raise_http failAt depth count).2.2 = 1) := by
  by_cases hgt : RAISE_RECURSIVE_SAFEGUARD_MAX < count
  · right
    refine ⟨hgt, ?_⟩
    rw [raise_http_safeguard_trip failAt depth count (le_of_lt hgt)]
  · left
    simp only [not_lt] at hgt
    have hgen : ∀ fuel depth2 c, RAISE_RECURSIVE_SAFEGUARD_MAX + 1 - c ≤ fuel →
        c ≤ RAISE_RECURSIVE_SAFEGUARD_MAX →
        (raise_http failAt depth2 c).2.2 + c ≤ RAISE_RECURSIVE_SAFEGUARD_MAX + 1 := by
      intro fuel
      induction fuel with
      | zero =>
        intro depth2 c hf hc
        omega
      | succ n ih =>
        intro depth2 c hf hc
        rw [raise_http]
        by_cases hlt : RAISE_RECURSIVE_SAFEGUARD_MAX < c + 1
        · simp [hlt]
          omega
        · cases hfail : failAt depth2 with
          | true =>
            have := ih (depth2 + 1) (c + 1) (by omega) (by omega)
            simp [hlt, hfail]
            omega
          | false =>
            simp [hlt, hfail]
            omega
    exact hgen (RAISE_RECURSIVE_SAFEGUARD_MAX + 1 - count) depth count (le_refl _) hgt

theorem raise_http_reset_on_complete (failAt : Nat → Bool) (depth count : Nat)
    (h : (raise_http failAt depth count).2.1 = HttpOutcome.formatted) :
    (raise_http failAt depth count).1 = 0 := by
  have hgen : ∀ fuel depth2 c, RAISE_RECURSIVE_SAFEGUARD_MAX + 1 - c ≤ fuel →
      (raise_http failAt depth2 c).2.1 = HttpOutcome.formatted →
      (raise_http failAt depth2 c).1 = 0 := by
    intro fuel
    induction fuel with
    | zero =>
      intro depth2 c hf hform
      rw [raise_http_safeguard_trip failAt depth2 c (by omega)] at hform ⊢
      exact absurd hform (by simp)
    | succ n ih =>
      intro depth2 c hf hform
      by_cases hlt : RAISE_RECURSIVE_SAFEGUARD_MAX < c + 1
      · rw [raise_http_safeguard_trip failAt depth2 c (by omega)] at hform
        exact absurd hform (by simp)
      · rw [raise_http] at hform ⊢
        simp only [hlt, if_false] at hform ⊢
        cases hfail : failAt depth2 with
        | true =>
          simp only [hfail, if_true] at hform ⊢
          exact ih (depth2 + 1) (c + 1) (by omega) hform
        | false =>
          simp [hfail]
  exact hgen (RAISE_RECURSIVE_SAFEGUARD_MAX + 1 - count) depth count (le_refl _) h

/- ## C10 — raise_http termination safeguard and counter reset -/

/-- C10: every `raise_http` invocation terminates with a bounded number of
nested invocations (at most `RAISE_RECURSIVE_SAFEGUARD_MAX + 1` from a reset
counter); once the counter records more than the maximum, a plain
`HTTPInternalServerError` is raised directly instead of recursing further;
and a `raise_http` call that completes with its formatted response — like
every completed `valid_http` call — leaves the safeguard counter reset
to 0. -/
theorem raise_http_safeguard_terminates (failAt : Nat → Bool) (depth count : Nat) :
    (count = 0 → (raise_http failAt depth count).2.2 ≤ RAISE_RECURSIVE_SAFEGUARD_MAX + 1) ∧
    (RAISE_RECURSIVE_SAFEGUARD_MAX ≤ count →
      raise_http failAt depth count = (count + 1, HttpOutcome.plainInternalError, 1)) ∧
    ((raise_http failAt depth count).2.1 = HttpOutcome.formatted →
      (raise_http failAt depth count).1 = 0) ∧
    (valid_http count).1 = 0 := by
  refine ⟨?_, raise_http_safeguard_trip failAt depth count,
    raise_http_reset_on_complete failAt depth count, rfl⟩
  intro hzero
  subst hzero
  rcases raise_http_calls_bounded failAt depth 0 with h | ⟨hgt, _⟩
  · omega
  · exact absurd hgt (by simp [RAISE_RECURSIVE_SAFEGUARD_MAX])

/-- Witness for C10: with formatting failing at every depth and the counter
at the maximum, `raise_http` raises the plain internal error immediately;
and a completed call (no formatting failure) leaves the counter at 0. -/
theorem raise_http_safeguard_terminates_witness :
    raise_http (fun _ => true) 0 RAISE_RECURSIVE_SAFEGUARD_MAX =
      (RAISE_RECURSIVE_SAFEGUARD_MAX + 1, HttpOutcome.plainInternalError, 1) ∧
    (raise_http (fun _ => false) 0 0).1 = 0 :=
  ⟨(raise_http_safeguard_terminates (fun _ => true) 0
      RAISE_RECURSIVE_SAFEGUARD_MAX).2.1 (le_refl _),
   (raise_http_safeguard_terminates (fun _ => false) 0 0).2.2.1
     (by rw [raise_http]; simp [RAISE_RECURSIVE_SAFEGUARD_MAX])⟩

end Magpie
